import Mathlib

/-!
Verification of the poker settlement engine (`calculateSettlements`,
`calculateTotals`, `generateMarkdownReport`) as a shallow embedding in Lean.

Monetary values are embedded as rationals.  JavaScript's
`Number((x).toFixed(2))` is modelled by `round2` (round to the nearest
hundredth, ties away from the floor, i.e. toward plus infinity — the tie rule
of `toFixed`, which picks the larger candidate integer).  `Math.abs` and
`Math.min` are modelled by `absQ` and `minQ`.  `Array.prototype.sort` with the
comparator `(a, b) => Math.abs(b.balance) - Math.abs(a.balance)` is a stable
descending sort by absolute balance (ECMAScript mandates sort stability); it
is modelled by a stable insertion sort with the non-strict "comes no later
than" relation.  The `while` loop of `calculateSettlements` is modelled by a
fuel-indexed recursion returning `Option`: `none` means the loop did not
finish within the given fuel (the loop has no other exit besides its guard).
-/

attribute [local semireducible] Rat.add Rat.sub Rat.mul Rat.inv Rat.ofScientific

namespace PokerSettle

/-- Model of `Math.abs` on rationals. -/
def absQ (x : ℚ) : ℚ := if x < 0 then -x else x

/-- Model of `Math.min` on rationals. -/
def minQ (x y : ℚ) : ℚ := if x ≤ y then x else y

/-- Model of `Number((x).toFixed(2))`: round to 2 decimal places, ties toward
plus infinity (`toFixed` picks the larger integer on a tie). -/
def round2 (x : ℚ) : ℚ := Rat.divInt (Rat.floor (100 * x + 1/2)) 100

/-- A rational is an exact multiple of one hundredth (a whole number of
pennies).  All balances produced by the engine satisfy this. -/
def IsCent (x : ℚ) : Prop := ∃ k : ℤ, x = (k : ℚ) / 100

/-- Mirror of the `Player` interface: stable identifier, display name, buy-in
and cash-out amounts. -/
structure Player where
  id : String
  name : String
  buyIn : ℚ
  cashOut : ℚ
deriving DecidableEq

/-- Mirror of the `Settlement` interface: payer id, payee id, amount. -/
structure Settlement where
  «from» : String
  «to» : String
  amount : ℚ
deriving DecidableEq

/-- The engine-internal balance record built inside `calculateSettlements`:
player id and name plus the signed net balance. -/
structure BalanceEntry where
  id : String
  name : String
  balance : ℚ
deriving DecidableEq

/-- Totals record returned by `calculateTotals`. -/
structure Totals where
  totalBuyIns : ℚ
  totalCashOuts : ℚ
deriving DecidableEq

/-- Mirror of `calculateTotals`: reduce over the players accumulating both
sums. -/
def calculateTotals (players : List Player) : Totals :=
  players.foldl
    (fun acc player =>
      { totalBuyIns := acc.totalBuyIns + player.buyIn,
        totalCashOuts := acc.totalCashOuts + player.cashOut })
    { totalBuyIns := 0, totalCashOuts := 0 }

/-- Mirror of `balances.sort((a, b) => Math.abs(b.balance) - Math.abs(a.balance))`:
stable sort, descending by absolute balance.  The comparator relation "`a`
may come before `b`" is `absQ b.balance ≤ absQ a.balance`; on ties the
original order is kept, matching the stability that ECMAScript guarantees. -/
def sortBalances (balances : List BalanceEntry) : List BalanceEntry :=
  balances.insertionSort (fun a b => absQ b.balance ≤ absQ a.balance)

/-- Mirror of `balances[0].balance < 0 ? balances[0] : balances[1]`. -/
def pickDebtor (b0 b1 : BalanceEntry) : BalanceEntry :=
  if b0.balance < 0 then b0 else b1

/-- Mirror of `balances[0].balance > 0 ? balances[0] : balances[1]`. -/
def pickCreditor (b0 b1 : BalanceEntry) : BalanceEntry :=
  if 0 < b0.balance then b0 else b1

/-- Mirror of `Math.min(Math.abs(debtor.balance), creditor.balance)`. -/
def stepAmount (b0 b1 : BalanceEntry) : ℚ :=
  minQ (absQ (pickDebtor b0 b1).balance) (pickCreditor b0 b1).balance

/-- The two in-place mutations
`debtor.balance = Number((debtor.balance + amount).toFixed(2))` and then
`creditor.balance = Number((creditor.balance - amount).toFixed(2))`, expressed
as the new values of the entries at positions 0 and 1 of the sorted array.
When `b0.balance = 0` the debtor and the creditor are the same object
(`balances[1]`), so the two mutations compose sequentially on it and
`balances[0]` is untouched. -/
def stepUpdated (b0 b1 : BalanceEntry) : BalanceEntry × BalanceEntry :=
  if b0.balance < 0 then
    ({ b0 with balance := round2 (b0.balance + stepAmount b0 b1) },
     { b1 with balance := round2 (b1.balance - stepAmount b0 b1) })
  else if 0 < b0.balance then
    ({ b0 with balance := round2 (b0.balance - stepAmount b0 b1) },
     { b1 with balance := round2 (b1.balance + stepAmount b0 b1) })
  else
    (b0, { b1 with balance := round2 (round2 (b1.balance + stepAmount b0 b1) - stepAmount b0 b1) })

/-- The filter `p => Math.abs(p.balance) > 0.01` applied after each update and
when balances are first built. -/
def keepBig (e : BalanceEntry) : Bool := decide ((1 : ℚ)/100 < absQ e.balance)

/-- One iteration of the `while (balances.length > 1)` loop body: sort, pick
debtor and creditor among the two largest-magnitude entries, compute the
amount, emit a settlement when the amount is positive, mutate the two
entries, and re-filter.  Returns the new balances list and the optional
emitted settlement.  (The fallback case is unreachable: the loop guard
ensures at least two entries.) -/
def settleStep (balances : List BalanceEntry) : List BalanceEntry × Option Settlement :=
  match sortBalances balances with
  | b0 :: b1 :: rest =>
      let amount := stepAmount b0 b1
      let updated := stepUpdated b0 b1
      ((updated.1 :: updated.2 :: rest).filter keepBig,
       if 0 < amount then
         some { «from» := (pickDebtor b0 b1).id, «to» := (pickCreditor b0 b1).id,
                amount := round2 amount }
       else none)
  | _ => (balances, none)

/-- The `while (balances.length > 1)` loop, indexed by fuel.  `none` models a
run that does not leave the loop within `fuel` iterations; the settlements
are returned in emission order, matching `settlements.push`. -/
def settleLoop : ℕ → List BalanceEntry → Option (List Settlement)
  | 0, balances => if 1 < balances.length then none else some []
  | fuel + 1, balances =>
      if 1 < balances.length then
        match settleLoop fuel (settleStep balances).1 with
        | none => none
        | some rest =>
            some (match (settleStep balances).2 with
                  | some s => s :: rest
                  | none => rest)
      else some []

/-- Mirror of the imbalance-adjustment block: when the imbalance is within
the threshold and there is at least one player, subtract
`imbalance / players.length` from every cash-out, rounded to 2 decimals. -/
def adjustedPlayers (players : List Player) (imbalanceThreshold : ℚ) : List Player :=
  let totals := calculateTotals players
  let imbalance := totals.totalCashOuts - totals.totalBuyIns
  if absQ imbalance ≤ imbalanceThreshold ∧ 0 < players.length then
    players.map (fun player =>
      { player with cashOut := round2 (player.cashOut - imbalance / (players.length : ℚ)) })
  else players

/-- The balance list as first built (before the `> 0.01` filter):
`balance = Number((player.cashOut - player.buyIn).toFixed(2))` over the
adjusted players. -/
def allBalances (players : List Player) (imbalanceThreshold : ℚ) : List BalanceEntry :=
  (adjustedPlayers players imbalanceThreshold).map
    (fun player => { id := player.id, name := player.name,
                     balance := round2 (player.cashOut - player.buyIn) })

/-- The initial `balances` list of `calculateSettlements`: derived balances
with the near-zero ones dropped. -/
def initialBalances (players : List Player) (imbalanceThreshold : ℚ) : List BalanceEntry :=
  (allBalances players imbalanceThreshold).filter keepBig

/-- Mirror of `calculateSettlements(players, imbalanceThreshold)`.  The fuel
only bounds the greedy loop; both non-loop exits (`return []` on excessive
imbalance, loop guard false) are `some`. -/
def calculateSettlements (fuel : ℕ) (players : List Player) (imbalanceThreshold : ℚ) :
    Option (List Settlement) :=
  let totals := calculateTotals players
  let imbalance := totals.totalCashOuts - totals.totalBuyIns
  if imbalanceThreshold < absQ imbalance then some []
  else settleLoop fuel (initialBalances players imbalanceThreshold)

/-- Instrumentation of the greedy loop (not part of the source): `stepsOK`
holds when at every iteration the selected creditor has a non-negative
balance.  When this fails, the source updates the two entries by a negative
`amount` without emitting any settlement, silently merging two debts. -/
def stepsOK : ℕ → List BalanceEntry → Bool
  | 0, _ => true
  | fuel + 1, balances =>
      if 1 < balances.length then
        (match sortBalances balances with
         | b0 :: b1 :: _ => decide (0 ≤ (pickCreditor b0 b1).balance)
         | _ => true)
        && stepsOK fuel (settleStep balances).1
      else true

/-- Total amount paid (routed out) by the player with the given id across a
settlement list. -/
def paidBy (settlements : List Settlement) (pid : String) : ℚ :=
  ((settlements.filter (fun s => decide (s.«from» = pid))).map Settlement.amount).sum

/-- Total amount received (routed in) by the player with the given id across
a settlement list. -/
def recvBy (settlements : List Settlement) (pid : String) : ℚ :=
  ((settlements.filter (fun s => decide (s.«to» = pid))).map Settlement.amount).sum

/-- Residual of a balance entry after applying a settlement list: paying
increases the (negative) balance, receiving decreases the (positive)
balance, exactly as the loop updates balances. -/
def residual (e : BalanceEntry) (settlements : List Settlement) : ℚ :=
  e.balance + paidBy settlements e.id - recvBy settlements e.id

/-- Number of entries whose residual after the settlements is more than one
penny away from zero. -/
def countBad (balances : List BalanceEntry) (settlements : List Settlement) : ℕ :=
  balances.countP (fun e => decide ((1 : ℚ)/100 < absQ (residual e settlements)))

/-- Ids carried by a balance list. -/
def idsOf (balances : List BalanceEntry) : List String := balances.map BalanceEntry.id

/-- Model of `formatGBP` from `lib/utils.ts`.  The source delegates to
`Intl.NumberFormat('en-GB', currency GBP)`; this model renders the same
sign, pound symbol and two decimal digits but omits thousands grouping
(no claim depends on amounts of 1000 or more). -/
def formatGBP (amount : ℚ) : String :=
  let pennies : ℤ := round (100 * amount)
  let mag : ℕ := pennies.natAbs
  (if pennies < 0 then "-£" else "£")
    ++ toString (mag / 100) ++ "."
    ++ (if mag % 100 < 10 then "0" else "") ++ toString (mag % 100)

/-- Mirror of `players.find(p => p.id === someId)?.name`: the optional name of
the player carrying the given id. -/
def findName (players : List Player) (pid : String) : Option String :=
  (players.find? (fun p => p.id == pid)).map Player.name

/-- JavaScript template-literal interpolation of a possibly-`undefined`
string: `undefined` is rendered as the text `undefined`, not as an empty
string and not as an error. -/
def renderName : Option String → String
  | some s => s
  | none => "undefined"

/-- One line of the settlements section of `generateMarkdownReport`:
the body of `settlements.map(s => ...)`. -/
def settlementLine (players : List Player) (s : Settlement) : String :=
  "- " ++ renderName (findName players s.«from») ++ " pays "
    ++ renderName (findName players s.«to») ++ ": " ++ formatGBP s.amount

/-- The joined settlements section text of `generateMarkdownReport`. -/
def settlementsList (players : List Player) (settlements : List Settlement) : String :=
  String.intercalate "\n" (settlements.map (settlementLine players))

/-- One row of the player-results table of `generateMarkdownReport`. -/
def playerRow (p : Player) : String :=
  "| " ++ p.name ++ " | " ++ formatGBP p.buyIn ++ " | " ++ formatGBP p.cashOut
    ++ " | " ++ formatGBP (p.cashOut - p.buyIn) ++ " |"

/-- Mirror of `generateMarkdownReport`.  It recomputes totals and settlements
from its own inputs; the settlement computation carries the loop fuel, so the
report is only defined (`some`) when the loop terminates within the fuel. -/
def generateMarkdownReport (fuel : ℕ) (players : List Player) (imbalanceThreshold : ℚ) :
    Option String :=
  (calculateSettlements fuel players imbalanceThreshold).map (fun settlements =>
    let totals := calculateTotals players
    let difference := totals.totalCashOuts - totals.totalBuyIns
    let isBalanced := absQ difference < 0.01
    let isWithinThreshold := absQ difference ≤ imbalanceThreshold
    let imbalanceMessages : List String :=
      if ¬isBalanced then
        [if isWithinThreshold then
           "Small imbalance of " ++ formatGBP (absQ difference) ++ " detected (within threshold)"
         else if 0 < difference then
           "Cash-outs exceed buy-ins by " ++ formatGBP difference
         else
           "Buy-ins exceed cash-outs by " ++ formatGBP (absQ difference)]
      else []
    let playerResults := String.intercalate "\n" (players.map playerRow)
    "# Poker Game Settlement Report\n\n## Player Results\n\n| Player | Buy-in | Cash-out | Net |\n|--------|---------|-----------|-----|\n"
      ++ playerResults
      ++ "\n\n**Total Buy-ins:** " ++ formatGBP totals.totalBuyIns
      ++ "\n**Total Cash-outs:** " ++ formatGBP totals.totalCashOuts
      ++ (if 0 < imbalanceMessages.length then
            "\n\n## Game Imbalance\n" ++ String.intercalate "\n" (imbalanceMessages.map (fun msg => "- " ++ msg))
          else "")
      ++ "\n\n## Settlements Required\n\n"
      ++ settlementsList players settlements)

/-- Two-player happy-path example: balances +0.50 and -0.50. -/
def simple2 : List Player :=
  [{ id := "1", name := "A", buyIn := 1, cashOut := 1.50 },
   { id := "2", name := "B", buyIn := 1, cashOut := 0.50 }]

/-- Two balanced players whose nets are exactly one penny: +0.01 and -0.01.
Both survive neither the initial filter nor any settlement. -/
def pennyPair : List Player :=
  [{ id := "1", name := "A", buyIn := 1, cashOut := 1.01 },
   { id := "2", name := "B", buyIn := 1, cashOut := 0.99 }]

/-- Two players with a half-penny global imbalance (totals 2 and 2.005). -/
def halfPennyPair : List Player :=
  [{ id := "1", name := "A", buyIn := 2, cashOut := 0 },
   { id := "2", name := "B", buyIn := 0, cashOut := 2.005 }]

/-- A single player whose ledger is off by 5: settlement must be refused for
any threshold below 5. -/
def lopsided1 : List Player :=
  [{ id := "1", name := "A", buyIn := 0, cashOut := 5 }]

/-- Four balanced players with nets +0.02, +0.02, -0.02, -0.02: after the
stable sort the two largest-magnitude balances are both positive. -/
def tiedQuad : List Player :=
  [{ id := "1", name := "A", buyIn := 1, cashOut := 1.02 },
   { id := "2", name := "B", buyIn := 1, cashOut := 1.02 },
   { id := "3", name := "C", buyIn := 1, cashOut := 0.98 },
   { id := "4", name := "D", buyIn := 1, cashOut := 0.98 }]

/-- Six balanced players with nets +0.05, +0.03, -0.02, -0.02, -0.02, -0.02:
the greedy loop emits 7 transfers, more than `playerCount - 1 = 5`. -/
def hexGame : List Player :=
  [{ id := "1", name := "P1", buyIn := 1, cashOut := 1.05 },
   { id := "2", name := "P2", buyIn := 1, cashOut := 1.03 },
   { id := "3", name := "P3", buyIn := 1, cashOut := 0.98 },
   { id := "4", name := "P4", buyIn := 1, cashOut := 0.98 },
   { id := "5", name := "P5", buyIn := 1, cashOut := 0.98 },
   { id := "6", name := "P6", buyIn := 1, cashOut := 0.98 }]

/-- Seven balanced players with nets +0.07, +0.03, -0.02 (five times): the
greedy loop enters a cycle and never terminates. -/
def sevenGame : List Player :=
  [{ id := "1", name := "P1", buyIn := 1, cashOut := 1.07 },
   { id := "2", name := "P2", buyIn := 1, cashOut := 1.03 },
   { id := "3", name := "P3", buyIn := 1, cashOut := 0.98 },
   { id := "4", name := "P4", buyIn := 1, cashOut := 0.98 },
   { id := "5", name := "P5", buyIn := 1, cashOut := 0.98 },
   { id := "6", name := "P6", buyIn := 1, cashOut := 0.98 },
   { id := "7", name := "P7", buyIn := 1, cashOut := 0.98 }]

/-- The five unchanging -0.02 entries of the `sevenGame` loop states. -/
def negFive : List BalanceEntry :=
  [⟨"3", "P3", -(1/50)⟩, ⟨"4", "P4", -(1/50)⟩, ⟨"5", "P5", -(1/50)⟩,
   ⟨"6", "P6", -(1/50)⟩, ⟨"7", "P7", -(1/50)⟩]

/-- Loop state of `sevenGame` after two iterations (also reached again every
four iterations): P2 at +0.02, P1 at +0.08. -/
def cycA : List BalanceEntry := ⟨"2", "P2", 1/50⟩ :: ⟨"1", "P1", 2/25⟩ :: negFive

/-- Successor state of `cycA`: P1 at +0.06, P2 at +0.04. -/
def cycB : List BalanceEntry := ⟨"1", "P1", 3/50⟩ :: ⟨"2", "P2", 1/25⟩ :: negFive

/-- Successor state of `cycB`: P1 at +0.02, P2 at +0.08. -/
def cycC : List BalanceEntry := ⟨"1", "P1", 1/50⟩ :: ⟨"2", "P2", 2/25⟩ :: negFive

/-- Successor state of `cycC`; its own successor is `cycA` again. -/
def cycD : List BalanceEntry := ⟨"2", "P2", 3/50⟩ :: ⟨"1", "P1", 1/25⟩ :: negFive

/-- Loop state of `sevenGame` after one iteration: P1 at +0.04, P2 at +0.06. -/
def preCyc : List BalanceEntry := ⟨"1", "P1", 1/25⟩ :: ⟨"2", "P2", 3/50⟩ :: negFive

/-- A balance entry of +0.50, used as a concrete opposite-sign state. -/
def posHalf : BalanceEntry := ⟨"1", "A", 1/2⟩

/-- A balance entry of -0.50, used as a concrete opposite-sign state. -/
def negHalf : BalanceEntry := ⟨"2", "B", -(1/2)⟩

/-- The two-entry opposite-sign balance state +0.50, -0.50. -/
def halfPair : List BalanceEntry := [posHalf, negHalf]

theorem absQ_nonneg (x : ℚ) : 0 ≤ absQ x := by
  unfold absQ; split <;> linarith

theorem absQ_of_nonneg {x : ℚ} (h : 0 ≤ x) : absQ x = x := by
  unfold absQ
  split
  · linarith
  · rfl

theorem absQ_of_neg {x : ℚ} (h : x < 0) : absQ x = -x := by
  unfold absQ
  rw [if_pos h]

theorem minQ_le_left (x y : ℚ) : minQ x y ≤ x := by
  unfold minQ; split <;> linarith

theorem minQ_le_right (x y : ℚ) : minQ x y ≤ y := by
  unfold minQ
  split
  · assumption
  · linarith

theorem minQ_nonneg {x y : ℚ} (hx : 0 ≤ x) (hy : 0 ≤ y) : 0 ≤ minQ x y := by
  unfold minQ; split <;> assumption

theorem round2_eq_floor (x : ℚ) : round2 x = ((⌊100 * x + 1/2⌋ : ℤ) : ℚ) / 100 := by
  rw [round2, Rat.divInt_eq_div]
  rfl

theorem isCent_round2 (x : ℚ) : IsCent (round2 x) :=
  ⟨⌊100 * x + 1/2⌋, round2_eq_floor x⟩

theorem round2_cent {x : ℚ} (h : IsCent x) : round2 x = x := by
  obtain ⟨k, rfl⟩ := h
  rw [round2_eq_floor]
  have h100 : (100 : ℚ) * ((k : ℚ) / 100) = (k : ℚ) := by field_simp
  rw [h100, Int.floor_int_add]
  norm_num

theorem IsCent.zero : IsCent (0 : ℚ) := ⟨0, by norm_num⟩

theorem IsCent.add {x y : ℚ} (hx : IsCent x) (hy : IsCent y) : IsCent (x + y) := by
  obtain ⟨k, rfl⟩ := hx
  obtain ⟨m, rfl⟩ := hy
  exact ⟨k + m, by push_cast; ring⟩

theorem IsCent.neg {x : ℚ} (hx : IsCent x) : IsCent (-x) := by
  obtain ⟨k, rfl⟩ := hx
  exact ⟨-k, by push_cast; ring⟩

theorem IsCent.sub {x y : ℚ} (hx : IsCent x) (hy : IsCent y) : IsCent (x - y) := by
  rw [sub_eq_add_neg]
  exact hx.add hy.neg

theorem IsCent.absQ {x : ℚ} (hx : IsCent x) : IsCent (absQ x) := by
  unfold PokerSettle.absQ
  split
  · exact hx.neg
  · exact hx

theorem IsCent.minQ {x y : ℚ} (hx : IsCent x) (hy : IsCent y) : IsCent (minQ x y) := by
  unfold PokerSettle.minQ
  split
  · exact hx
  · exact hy

theorem sortBalances_perm (bs : List BalanceEntry) : (sortBalances bs).Perm bs :=
  List.perm_insertionSort _ bs

theorem length_sortBalances (bs : List BalanceEntry) :
    (sortBalances bs).length = bs.length :=
  (sortBalances_perm bs).length_eq

theorem sortBalances_cons_cons {bs : List BalanceEntry} (hlen : 1 < bs.length) :
    ∃ b0 b1 rest, sortBalances bs = b0 :: b1 :: rest := by
  rcases hsb : sortBalances bs with _ | ⟨b0, _ | ⟨b1, rest⟩⟩
  · have := length_sortBalances bs
    rw [hsb] at this
    simp at this
    omega
  · have := length_sortBalances bs
    rw [hsb] at this
    simp at this
    omega
  · exact ⟨b0, b1, rest, hsb ▸ rfl⟩

theorem pickDebtor_of_neg {b0 b1 : BalanceEntry} (h : b0.balance < 0) :
    pickDebtor b0 b1 = b0 := by
  unfold pickDebtor
  rw [if_pos h]

theorem pickDebtor_of_nonneg {b0 b1 : BalanceEntry} (h : ¬b0.balance < 0) :
    pickDebtor b0 b1 = b1 := by
  unfold pickDebtor
  rw [if_neg h]

theorem pickCreditor_of_pos {b0 b1 : BalanceEntry} (h : 0 < b0.balance) :
    pickCreditor b0 b1 = b0 := by
  unfold pickCreditor
  rw [if_pos h]

theorem pickCreditor_of_nonpos {b0 b1 : BalanceEntry} (h : ¬0 < b0.balance) :
    pickCreditor b0 b1 = b1 := by
  unfold pickCreditor
  rw [if_neg h]

theorem stepUpdated_fst_id (b0 b1 : BalanceEntry) : (stepUpdated b0 b1).1.id = b0.id := by
  unfold stepUpdated
  split
  · rfl
  · split
    · rfl
    · rfl

theorem stepUpdated_snd_id (b0 b1 : BalanceEntry) : (stepUpdated b0 b1).2.id = b1.id := by
  unfold stepUpdated
  split
  · rfl
  · split
    · rfl
    · rfl

theorem stepUpdated_of_neg {b0 b1 : BalanceEntry} (h : b0.balance < 0) :
    stepUpdated b0 b1 =
      ({ b0 with balance := round2 (b0.balance + stepAmount b0 b1) },
       { b1 with balance := round2 (b1.balance - stepAmount b0 b1) }) := by
  unfold stepUpdated
  rw [if_pos h]

theorem stepUpdated_of_pos {b0 b1 : BalanceEntry} (h : 0 < b0.balance) :
    stepUpdated b0 b1 =
      ({ b0 with balance := round2 (b0.balance - stepAmount b0 b1) },
       { b1 with balance := round2 (b1.balance + stepAmount b0 b1) }) := by
  unfold stepUpdated
  rw [if_neg (by linarith), if_pos h]

theorem stepUpdated_of_zero {b0 b1 : BalanceEntry} (h : b0.balance = 0) :
    stepUpdated b0 b1 =
      (b0, ⟨b1.id, b1.name,
        round2 (round2 (b1.balance + stepAmount b0 b1) - stepAmount b0 b1)⟩) := by
  unfold stepUpdated
  rw [if_neg (by rw [h]; exact lt_irrefl 0), if_neg (by rw [h]; exact lt_irrefl 0)]

theorem stepAmount_cent {b0 b1 : BalanceEntry} (h0 : IsCent b0.balance)
    (h1 : IsCent b1.balance) : IsCent (stepAmount b0 b1) := by
  unfold stepAmount
  have hd : IsCent (pickDebtor b0 b1).balance := by
    unfold pickDebtor
    split
    · exact h0
    · exact h1
  have hc : IsCent (pickCreditor b0 b1).balance := by
    unfold pickCreditor
    split
    · exact h0
    · exact h1
  exact hd.absQ.minQ hc

theorem stepAmount_nonneg {b0 b1 : BalanceEntry}
    (hc : 0 ≤ (pickCreditor b0 b1).balance) : 0 ≤ stepAmount b0 b1 :=
  minQ_nonneg (absQ_nonneg _) hc

theorem settleStep_eq {bs : List BalanceEntry} {b0 b1 : BalanceEntry}
    {rest : List BalanceEntry} (hsort : sortBalances bs = b0 :: b1 :: rest) :
    settleStep bs =
      (((stepUpdated b0 b1).1 :: (stepUpdated b0 b1).2 :: rest).filter keepBig,
       if 0 < stepAmount b0 b1 then
         some { «from» := (pickDebtor b0 b1).id, «to» := (pickCreditor b0 b1).id,
                amount := round2 (stepAmount b0 b1) }
       else none) := by
  unfold settleStep
  rw [hsort]

theorem settleStep_of_nil {bs : List BalanceEntry} (hsort : sortBalances bs = []) :
    settleStep bs = (bs, none) := by
  unfold settleStep
  rw [hsort]

theorem settleStep_of_single {bs : List BalanceEntry} {b : BalanceEntry}
    (hsort : sortBalances bs = [b]) : settleStep bs = (bs, none) := by
  unfold settleStep
  rw [hsort]

theorem mem_of_mem_sortBalances {bs : List BalanceEntry} {e : BalanceEntry}
    (h : e ∈ sortBalances bs) : e ∈ bs :=
  (sortBalances_perm bs).mem_iff.mp h

theorem pickDebtor_cases (b0 b1 : BalanceEntry) :
    pickDebtor b0 b1 = b0 ∨ pickDebtor b0 b1 = b1 := by
  unfold pickDebtor
  split
  · exact Or.inl rfl
  · exact Or.inr rfl

theorem pickCreditor_cases (b0 b1 : BalanceEntry) :
    pickCreditor b0 b1 = b0 ∨ pickCreditor b0 b1 = b1 := by
  unfold pickCreditor
  split
  · exact Or.inl rfl
  · exact Or.inr rfl

theorem idsOf_updated (b0 b1 : BalanceEntry) (rest : List BalanceEntry) :
    idsOf ((stepUpdated b0 b1).1 :: (stepUpdated b0 b1).2 :: rest) =
      b0.id :: b1.id :: idsOf rest := by
  simp [idsOf, stepUpdated_fst_id, stepUpdated_snd_id]

theorem idsOf_sortBalances_perm (bs : List BalanceEntry) :
    (idsOf (sortBalances bs)).Perm (idsOf bs) :=
  (sortBalances_perm bs).map _

theorem mem_idsOf_settleStep {bs : List BalanceEntry} {x : String}
    (h : x ∈ idsOf (settleStep bs).1) : x ∈ idsOf bs := by
  rcases hsb : sortBalances bs with _ | ⟨b0, _ | ⟨b1, rest⟩⟩
  · rw [settleStep_of_nil hsb] at h
    exact h
  · rw [settleStep_of_single hsb] at h
    exact h
  · rw [settleStep_eq hsb] at h
    have hsub : (idsOf (((stepUpdated b0 b1).1 :: (stepUpdated b0 b1).2 :: rest).filter keepBig)).Sublist
        (idsOf ((stepUpdated b0 b1).1 :: (stepUpdated b0 b1).2 :: rest)) :=
      (List.filter_sublist _).map _
    have hx : x ∈ idsOf ((stepUpdated b0 b1).1 :: (stepUpdated b0 b1).2 :: rest) :=
      hsub.subset h
    rw [idsOf_updated] at hx
    have hx2 : x ∈ idsOf (sortBalances bs) := by
      rw [hsb]
      exact hx
    exact (idsOf_sortBalances_perm bs).mem_iff.mp hx2

theorem nodup_settleStep {bs : List BalanceEntry} (h : (idsOf bs).Nodup) :
    (idsOf (settleStep bs).1).Nodup := by
  rcases hsb : sortBalances bs with _ | ⟨b0, _ | ⟨b1, rest⟩⟩
  · rw [settleStep_of_nil hsb]
    exact h
  · rw [settleStep_of_single hsb]
    exact h
  · rw [settleStep_eq hsb]
    have hsorted : (idsOf (sortBalances bs)).Nodup :=
      (idsOf_sortBalances_perm bs).nodup_iff.mpr h
    rw [hsb] at hsorted
    have hup : (idsOf ((stepUpdated b0 b1).1 :: (stepUpdated b0 b1).2 :: rest)).Nodup := by
      rw [idsOf_updated]
      exact hsorted
    exact ((List.filter_sublist _).map _).nodup hup

theorem stepUpdated_fst_cent {b0 b1 : BalanceEntry} (h0 : IsCent b0.balance) :
    IsCent (stepUpdated b0 b1).1.balance := by
  unfold stepUpdated
  split
  · exact isCent_round2 _
  · split
    · exact isCent_round2 _
    · exact h0

theorem stepUpdated_snd_cent (b0 b1 : BalanceEntry) :
    IsCent (stepUpdated b0 b1).2.balance := by
  unfold stepUpdated
  split
  · exact isCent_round2 _
  · split
    · exact isCent_round2 _
    · exact isCent_round2 _

theorem cent_settleStep {bs : List BalanceEntry} (h : ∀ e ∈ bs, IsCent e.balance) :
    ∀ e ∈ (settleStep bs).1, IsCent e.balance := by
  rcases hsb : sortBalances bs with _ | ⟨b0, _ | ⟨b1, rest⟩⟩
  · rw [settleStep_of_nil hsb]
    exact h
  · rw [settleStep_of_single hsb]
    exact h
  · rw [settleStep_eq hsb]
    intro e he
    have he1 : e ∈ List.filter keepBig
        ((stepUpdated b0 b1).1 :: (stepUpdated b0 b1).2 :: rest) := he
    have he2 := (List.filter_sublist _).subset he1
    have hb0 : IsCent b0.balance := h b0 (mem_of_mem_sortBalances (hsb ▸ List.mem_cons_self _ _))
    simp only [List.mem_cons] at he2
    rcases he2 with he2 | he2 | he2
    · rw [he2]
      exact stepUpdated_fst_cent hb0
    · rw [he2]
      exact stepUpdated_snd_cent b0 b1
    · exact h e (mem_of_mem_sortBalances (hsb ▸ List.mem_cons_of_mem _ (List.mem_cons_of_mem _ he2)))

theorem big_settleStep {bs : List BalanceEntry} (h : ∀ e ∈ bs, (1 : ℚ)/100 < absQ e.balance) :
    ∀ e ∈ (settleStep bs).1, (1 : ℚ)/100 < absQ e.balance := by
  rcases hsb : sortBalances bs with _ | ⟨b0, _ | ⟨b1, rest⟩⟩
  · rw [settleStep_of_nil hsb]
    exact h
  · rw [settleStep_of_single hsb]
    exact h
  · rw [settleStep_eq hsb]
    intro e he
    have he1 : e ∈ List.filter keepBig
        ((stepUpdated b0 b1).1 :: (stepUpdated b0 b1).2 :: rest) := he
    have hk : keepBig e = true := List.of_mem_filter he1
    unfold keepBig at hk
    exact of_decide_eq_true hk

theorem paidBy_nil (pid : String) : paidBy [] pid = 0 := rfl

theorem recvBy_nil (pid : String) : recvBy [] pid = 0 := rfl

theorem paidBy_cons (s : Settlement) (T : List Settlement) (pid : String) :
    paidBy (s :: T) pid = (if s.«from» = pid then s.amount else 0) + paidBy T pid := by
  unfold paidBy
  by_cases h : s.«from» = pid
  · simp [List.filter_cons, h]
  · simp [List.filter_cons, h]

theorem recvBy_cons (s : Settlement) (T : List Settlement) (pid : String) :
    recvBy (s :: T) pid = (if s.«to» = pid then s.amount else 0) + recvBy T pid := by
  unfold recvBy
  by_cases h : s.«to» = pid
  · simp [List.filter_cons, h]
  · simp [List.filter_cons, h]

theorem paidBy_eq_zero {T : List Settlement} {pid : String}
    (h : ∀ s ∈ T, s.«from» ≠ pid) : paidBy T pid = 0 := by
  induction T with
  | nil => rfl
  | cons s T ih =>
      rw [paidBy_cons, if_neg (h s (List.mem_cons_self s T)),
        ih (fun t ht => h t (List.mem_cons_of_mem s ht))]
      ring

theorem recvBy_eq_zero {T : List Settlement} {pid : String}
    (h : ∀ s ∈ T, s.«to» ≠ pid) : recvBy T pid = 0 := by
  induction T with
  | nil => rfl
  | cons s T ih =>
      rw [recvBy_cons, if_neg (h s (List.mem_cons_self s T)),
        ih (fun t ht => h t (List.mem_cons_of_mem s ht))]
      ring

theorem settleLoop_mem_ids {fuel : ℕ} :
    ∀ {bs : List BalanceEntry} {T : List Settlement},
      settleLoop fuel bs = some T →
      ∀ s ∈ T, s.«from» ∈ idsOf bs ∧ s.«to» ∈ idsOf bs := by
  induction fuel with
  | zero =>
      intro bs T hrun s hs
      unfold settleLoop at hrun
      split at hrun
      · cases hrun
      · cases hrun
        cases hs
  | succ fuel ih =>
      intro bs T hrun s hs
      unfold settleLoop at hrun
      split at hrun
      case isFalse =>
        cases hrun
        cases hs
      case isTrue hlen =>
        rcases hrec : settleLoop fuel (settleStep bs).1 with _ | T'
        · rw [hrec] at hrun
          cases hrun
        · rw [hrec] at hrun
          obtain ⟨b0, b1, rest, hsb⟩ := sortBalances_cons_cons hlen
          have hids : ∀ t ∈ T', t.«from» ∈ idsOf bs ∧ t.«to» ∈ idsOf bs := by
            intro t ht
            obtain ⟨h1, h2⟩ := ih hrec t ht
            exact ⟨mem_idsOf_settleStep h1, mem_idsOf_settleStep h2⟩
          have hd : (pickDebtor b0 b1).id ∈ idsOf bs := by
            have hmem : pickDebtor b0 b1 ∈ bs := by
              rcases pickDebtor_cases b0 b1 with hc | hc <;> rw [hc]
              · exact mem_of_mem_sortBalances (hsb ▸ List.mem_cons_self _ _)
              · exact mem_of_mem_sortBalances
                  (hsb ▸ List.mem_cons_of_mem _ (List.mem_cons_self _ _))
            exact List.mem_map_of_mem _ hmem
          have hc : (pickCreditor b0 b1).id ∈ idsOf bs := by
            have hmem : pickCreditor b0 b1 ∈ bs := by
              rcases pickCreditor_cases b0 b1 with hc | hc <;> rw [hc]
              · exact mem_of_mem_sortBalances (hsb ▸ List.mem_cons_self _ _)
              · exact mem_of_mem_sortBalances
                  (hsb ▸ List.mem_cons_of_mem _ (List.mem_cons_self _ _))
            exact List.mem_map_of_mem _ hmem
          rw [settleStep_eq hsb] at hrun
          by_cases hamt : 0 < stepAmount b0 b1
          · rw [if_pos hamt] at hrun
            have hT := Option.some.inj hrun
            subst hT
            simp only [List.mem_cons] at hs
            rcases hs with hs | hs
            · rw [hs]
              exact ⟨hd, hc⟩
            · exact hids s hs
          · rw [if_neg hamt] at hrun
            have hT := Option.some.inj hrun
            subst hT
            exact hids s hs

theorem absQ_ne_zero {x : ℚ} (h : (1 : ℚ)/100 < absQ x) : x ≠ 0 := by
  intro h0
  rw [h0] at h
  have : absQ (0 : ℚ) = 0 := by unfold absQ; norm_num
  rw [this] at h
  norm_num at h

theorem nodup_head_ne {x y : String} {l : List String} (h : (x :: y :: l).Nodup) : x ≠ y := by
  intro hxy
  exact (List.nodup_cons.mp h).1 (hxy ▸ List.mem_cons_self y l)

theorem sorted_ids_nodup {bs : List BalanceEntry} {b0 b1 : BalanceEntry}
    {rest : List BalanceEntry} (hsb : sortBalances bs = b0 :: b1 :: rest)
    (h : (idsOf bs).Nodup) : (b0.id :: b1.id :: idsOf rest).Nodup := by
  have hsorted : (idsOf (sortBalances bs)).Nodup := (idsOf_sortBalances_perm bs).nodup_iff.mpr h
  rw [hsb] at hsorted
  exact hsorted

theorem settleLoop_wellFormed {fuel : ℕ} :
    ∀ {bs : List BalanceEntry} {T : List Settlement},
      (idsOf bs).Nodup → (∀ e ∈ bs, IsCent e.balance) →
      (∀ e ∈ bs, (1 : ℚ)/100 < absQ e.balance) →
      settleLoop fuel bs = some T →
      ∀ s ∈ T, 0 < s.amount ∧ s.«from» ≠ s.«to» := by
  induction fuel with
  | zero =>
      intro bs T _ _ _ hrun s hs
      unfold settleLoop at hrun
      split at hrun
      · cases hrun
      · cases hrun
        cases hs
  | succ fuel ih =>
      intro bs T hnodup hcent hbig hrun s hs
      unfold settleLoop at hrun
      split at hrun
      case isFalse =>
        cases hrun
        cases hs
      case isTrue hlen =>
        rcases hrec : settleLoop fuel (settleStep bs).1 with _ | T'
        · rw [hrec] at hrun
          cases hrun
        · rw [hrec] at hrun
          obtain ⟨b0, b1, rest, hsb⟩ := sortBalances_cons_cons hlen
          have hrecmem : ∀ t ∈ T', 0 < t.amount ∧ t.«from» ≠ t.«to» :=
            ih (nodup_settleStep hnodup) (cent_settleStep hcent) (big_settleStep hbig) hrec
          rw [settleStep_eq hsb] at hrun
          by_cases hamt : 0 < stepAmount b0 b1
          · rw [if_pos hamt] at hrun
            have hT := Option.some.inj hrun
            subst hT
            simp only [List.mem_cons] at hs
            rcases hs with hs | hs
            · have hb0mem : b0 ∈ bs :=
                mem_of_mem_sortBalances (hsb ▸ List.mem_cons_self _ _)
              have hb1mem : b1 ∈ bs :=
                mem_of_mem_sortBalances (hsb ▸ List.mem_cons_of_mem _ (List.mem_cons_self _ _))
              have hacent : IsCent (stepAmount b0 b1) :=
                stepAmount_cent (hcent b0 hb0mem) (hcent b1 hb1mem)
              have hids := sorted_ids_nodup hsb hnodup
              have hne01 : b0.id ≠ b1.id := nodup_head_ne hids
              have hb0ne : b0.balance ≠ 0 := absQ_ne_zero (hbig b0 hb0mem)
              rw [hs]
              refine ⟨?_, ?_⟩
              · simp only [round2_cent hacent]
                exact hamt
              · simp only []
                rcases lt_trichotomy b0.balance 0 with hb | hb | hb
                · rw [pickDebtor_of_neg hb, pickCreditor_of_nonpos (by linarith)]
                  exact hne01
                · exact absurd hb hb0ne
                · rw [pickDebtor_of_nonneg (by linarith), pickCreditor_of_pos hb]
                  exact hne01.symm
            · exact hrecmem s hs
          · rw [if_neg hamt] at hrun
            have hT := Option.some.inj hrun
            subst hT
            exact hrecmem s hs

theorem idsOf_allBalances (players : List Player) (t : ℚ) :
    idsOf (allBalances players t) = players.map Player.id := by
  unfold idsOf allBalances adjustedPlayers
  dsimp only
  split
  · simp [List.map_map]
  · simp [List.map_map]

theorem nodup_initialBalances {players : List Player} {t : ℚ}
    (hnodup : (players.map Player.id).Nodup) :
    (idsOf (initialBalances players t)).Nodup := by
  have h1 : (idsOf (allBalances players t)).Nodup := by
    rw [idsOf_allBalances]
    exact hnodup
  exact ((List.filter_sublist _).map _).nodup h1

theorem cent_initialBalances (players : List Player) (t : ℚ) :
    ∀ e ∈ initialBalances players t, IsCent e.balance := by
  intro e he
  have he2 : e ∈ allBalances players t := (List.filter_sublist _).subset he
  unfold allBalances at he2
  obtain ⟨p, _, rfl⟩ := List.mem_map.mp he2
  exact isCent_round2 _

theorem big_initialBalances (players : List Player) (t : ℚ) :
    ∀ e ∈ initialBalances players t, (1 : ℚ)/100 < absQ e.balance := by
  intro e he
  have hk : keepBig e = true := List.of_mem_filter he
  unfold keepBig at hk
  exact of_decide_eq_true hk

theorem calculateSettlements_of_imbalance {fuel : ℕ} {players : List Player} {t : ℚ}
    (h : t < absQ ((calculateTotals players).totalCashOuts -
      (calculateTotals players).totalBuyIns)) :
    calculateSettlements fuel players t = some [] := by
  unfold calculateSettlements
  rw [if_pos h]

theorem calculateSettlements_of_within {fuel : ℕ} {players : List Player} {t : ℚ}
    (h : ¬t < absQ ((calculateTotals players).totalCashOuts -
      (calculateTotals players).totalBuyIns)) :
    calculateSettlements fuel players t = settleLoop fuel (initialBalances players t) := by
  unfold calculateSettlements
  rw [if_neg h]

theorem countBad_cons (e : BalanceEntry) (l : List BalanceEntry) (T : List Settlement) :
    countBad (e :: l) T =
      countBad l T + (if (1 : ℚ)/100 < absQ (residual e T) then 1 else 0) := by
  unfold countBad
  rw [List.countP_cons]
  simp

theorem countBad_filter {l : List BalanceEntry} {T : List Settlement}
    (h : ∀ e ∈ l, keepBig e = false → ¬((1 : ℚ)/100 < absQ (residual e T))) :
    countBad l T = countBad (l.filter keepBig) T := by
  induction l with
  | nil => rfl
  | cons e l ih =>
      rw [countBad_cons, List.filter_cons]
      by_cases hk : keepBig e = true
      · rw [if_pos hk, countBad_cons, ih (fun x hx hxf => h x (List.mem_cons_of_mem _ hx) hxf)]
      · have hkf : keepBig e = false := by
          simpa using hk
        have hpe := h e (List.mem_cons_self _ _) hkf
        rw [if_neg hpe, if_neg hk, ih (fun x hx hxf => h x (List.mem_cons_of_mem _ hx) hxf)]
        omega

theorem residual_of_ne {e : BalanceEntry} {T T' : List Settlement} {d c : String} {a : ℚ}
    (hpaid : paidBy T e.id = (if d = e.id then a else 0) + paidBy T' e.id)
    (hrecv : recvBy T e.id = (if c = e.id then a else 0) + recvBy T' e.id)
    (hd : d ≠ e.id) (hc : c ≠ e.id) : residual e T = residual e T' := by
  unfold residual
  rw [hpaid, hrecv, if_neg hd, if_neg hc]
  ring

theorem countBad_step {b0 b1 : BalanceEntry} {rest : List BalanceEntry}
    {T T' : List Settlement}
    (hids : (b0.id :: b1.id :: idsOf rest).Nodup)
    (hc0 : IsCent b0.balance) (hc1 : IsCent b1.balance)
    (hpaid : ∀ pid, paidBy T pid =
      (if (pickDebtor b0 b1).id = pid then stepAmount b0 b1 else 0) + paidBy T' pid)
    (hrecv : ∀ pid, recvBy T pid =
      (if (pickCreditor b0 b1).id = pid then stepAmount b0 b1 else 0) + recvBy T' pid) :
    countBad (b0 :: b1 :: rest) T =
      countBad ((stepUpdated b0 b1).1 :: (stepUpdated b0 b1).2 :: rest) T' := by
  have hacent : IsCent (stepAmount b0 b1) := stepAmount_cent hc0 hc1
  have hne01 : b0.id ≠ b1.id := nodup_head_ne hids
  have hb0nr : b0.id ∉ idsOf rest := by
    have := (List.nodup_cons.mp hids).1
    intro hmem
    exact this (List.mem_cons_of_mem _ hmem)
  have hb1nr : b1.id ∉ idsOf rest := by
    have := (List.nodup_cons.mp (List.nodup_cons.mp hids).2).1
    exact this
  have hres0 : residual b0 T = residual (stepUpdated b0 b1).1 T' := by
    rcases lt_trichotomy b0.balance 0 with hb | hb | hb
    · rw [stepUpdated_of_neg hb]
      unfold residual
      dsimp only
      have hdeq : pickDebtor b0 b1 = b0 := pickDebtor_of_neg hb
      have hceq : pickCreditor b0 b1 = b1 := pickCreditor_of_nonpos (by linarith)
      rw [hpaid b0.id, hrecv b0.id, hdeq, hceq, if_pos rfl,
        if_neg (fun h => hne01 h.symm), round2_cent (hc0.add hacent)]
      ring
    · rw [stepUpdated_of_zero hb]
      unfold residual
      dsimp only
      have hdeq : pickDebtor b0 b1 = b1 := pickDebtor_of_nonneg (by rw [hb]; exact lt_irrefl 0)
      have hceq : pickCreditor b0 b1 = b1 := pickCreditor_of_nonpos (by rw [hb]; exact lt_irrefl 0)
      rw [hpaid b0.id, hrecv b0.id, hdeq, hceq, if_neg (fun h => hne01 h.symm)]
      ring
    · rw [stepUpdated_of_pos hb]
      unfold residual
      dsimp only
      have hdeq : pickDebtor b0 b1 = b1 := pickDebtor_of_nonneg (by linarith)
      have hceq : pickCreditor b0 b1 = b0 := pickCreditor_of_pos hb
      rw [hpaid b0.id, hrecv b0.id, hdeq, hceq, if_neg (fun h => hne01 h.symm), if_pos rfl,
        round2_cent (hc0.sub hacent)]
      ring
  have hres1 : residual b1 T = residual (stepUpdated b0 b1).2 T' := by
    rcases lt_trichotomy b0.balance 0 with hb | hb | hb
    · rw [stepUpdated_of_neg hb]
      unfold residual
      dsimp only
      have hdeq : pickDebtor b0 b1 = b0 := pickDebtor_of_neg hb
      have hceq : pickCreditor b0 b1 = b1 := pickCreditor_of_nonpos (by linarith)
      rw [hpaid b1.id, hrecv b1.id, hdeq, hceq, if_neg hne01, if_pos rfl,
        round2_cent (hc1.sub hacent)]
      ring
    · rw [stepUpdated_of_zero hb]
      unfold residual
      dsimp only
      have hdeq : pickDebtor b0 b1 = b1 := pickDebtor_of_nonneg (by rw [hb]; exact lt_irrefl 0)
      have hceq : pickCreditor b0 b1 = b1 := pickCreditor_of_nonpos (by rw [hb]; exact lt_irrefl 0)
      rw [hpaid b1.id, hrecv b1.id, hdeq, hceq, if_pos rfl,
        round2_cent (hc1.add hacent), round2_cent ((hc1.add hacent).sub hacent)]
      ring
    · rw [stepUpdated_of_pos hb]
      unfold residual
      dsimp only
      have hdeq : pickDebtor b0 b1 = b1 := pickDebtor_of_nonneg (by linarith)
      have hceq : pickCreditor b0 b1 = b0 := pickCreditor_of_pos hb
      rw [hpaid b1.id, hrecv b1.id, hdeq, hceq, if_pos rfl, if_neg hne01,
        round2_cent (hc1.add hacent)]
      ring
  have hresr : ∀ e ∈ rest, residual e T = residual e T' := by
    intro e he
    have heid : e.id ∈ idsOf rest := List.mem_map_of_mem _ he
    have hdne : (pickDebtor b0 b1).id ≠ e.id := by
      rcases pickDebtor_cases b0 b1 with hc | hc <;> rw [hc] <;> intro hcon
      · exact hb0nr (hcon ▸ heid)
      · exact hb1nr (hcon ▸ heid)
    have hcne : (pickCreditor b0 b1).id ≠ e.id := by
      rcases pickCreditor_cases b0 b1 with hc | hc <;> rw [hc] <;> intro hcon
      · exact hb0nr (hcon ▸ heid)
      · exact hb1nr (hcon ▸ heid)
    exact residual_of_ne (hpaid e.id) (hrecv e.id) hdne hcne
  rw [countBad_cons, countBad_cons, countBad_cons, countBad_cons, hres0, hres1]
  have hcr : countBad rest T = countBad rest T' := by
    unfold countBad
    exact List.countP_congr (fun e he => by rw [hresr e he])
  rw [hcr]

theorem settleLoop_countBad {fuel : ℕ} :
    ∀ {bs : List BalanceEntry} {T : List Settlement},
      (idsOf bs).Nodup → (∀ e ∈ bs, IsCent e.balance) →
      stepsOK fuel bs = true → settleLoop fuel bs = some T →
      countBad bs T ≤ 1 := by
  induction fuel with
  | zero =>
      intro bs T _ _ _ hrun
      unfold settleLoop at hrun
      split at hrun
      · cases hrun
      case isFalse hlen =>
        cases hrun
        calc countBad bs [] ≤ bs.length := List.countP_le_length _
          _ ≤ 1 := by omega
  | succ fuel ih =>
      intro bs T hnodup hcent hok hrun
      unfold settleLoop at hrun
      split at hrun
      case isFalse hlen =>
        cases hrun
        calc countBad bs [] ≤ bs.length := List.countP_le_length _
          _ ≤ 1 := by omega
      case isTrue hlen =>
        rcases hrec : settleLoop fuel (settleStep bs).1 with _ | T'
        · rw [hrec] at hrun
          cases hrun
        · rw [hrec] at hrun
          obtain ⟨b0, b1, rest, hsb⟩ := sortBalances_cons_cons hlen
          unfold stepsOK at hok
          rw [if_pos hlen, hsb] at hok
          rw [Bool.and_eq_true] at hok
          have hcred : 0 ≤ (pickCreditor b0 b1).balance := of_decide_eq_true hok.1
          have hok' : stepsOK fuel (settleStep bs).1 = true := hok.2
          have hb0mem : b0 ∈ bs :=
            mem_of_mem_sortBalances (hsb ▸ List.mem_cons_self _ _)
          have hb1mem : b1 ∈ bs :=
            mem_of_mem_sortBalances (hsb ▸ List.mem_cons_of_mem _ (List.mem_cons_self _ _))
          have hc0 : IsCent b0.balance := hcent b0 hb0mem
          have hc1 : IsCent b1.balance := hcent b1 hb1mem
          have hacent : IsCent (stepAmount b0 b1) := stepAmount_cent hc0 hc1
          have hids := sorted_ids_nodup hsb hnodup
          have hbs' : (settleStep bs).1 =
              List.filter keepBig ((stepUpdated b0 b1).1 :: (stepUpdated b0 b1).2 :: rest) := by
            rw [settleStep_eq hsb]
          have hbad' : countBad (settleStep bs).1 T' ≤ 1 :=
            ih (nodup_settleStep hnodup) (cent_settleStep hcent) hok' hrec
          rw [settleStep_eq hsb] at hrun
          have hidsup : idsOf ((stepUpdated b0 b1).1 :: (stepUpdated b0 b1).2 :: rest) =
              b0.id :: b1.id :: idsOf rest := idsOf_updated b0 b1 rest
          have hnodupUp : (idsOf ((stepUpdated b0 b1).1 :: (stepUpdated b0 b1).2 :: rest)).Nodup := by
            rw [hidsup]
            exact hids
          have hdrop : ∀ e ∈ (stepUpdated b0 b1).1 :: (stepUpdated b0 b1).2 :: rest,
              keepBig e = false → ¬((1 : ℚ)/100 < absQ (residual e T')) := by
            intro e he hkf
            have hnotouch : ∀ s ∈ T', s.«from» ≠ e.id ∧ s.«to» ≠ e.id := by
              intro s hsmem
              have hsids := settleLoop_mem_ids hrec s hsmem
              constructor
              · intro hcon
                rw [hcon] at hsids
                obtain ⟨e', he'mem, he'id⟩ := List.mem_map.mp (hbs' ▸ hsids.1)
                have he'filter := List.mem_filter.mp he'mem
                have : e' = e := List.inj_on_of_nodup_map
                  hnodupUp he'filter.1 he he'id
                rw [this] at he'filter
                rw [hkf] at he'filter
                cases he'filter.2
              · intro hcon
                rw [hcon] at hsids
                obtain ⟨e', he'mem, he'id⟩ := List.mem_map.mp (hbs' ▸ hsids.2)
                have he'filter := List.mem_filter.mp he'mem
                have : e' = e := List.inj_on_of_nodup_map
                  hnodupUp he'filter.1 he he'id
                rw [this] at he'filter
                rw [hkf] at he'filter
                cases he'filter.2
            have hres : residual e T' = e.balance := by
              unfold residual
              rw [paidBy_eq_zero (fun s hsm => (hnotouch s hsm).1),
                recvBy_eq_zero (fun s hsm => (hnotouch s hsm).2)]
              ring
            rw [hres]
            unfold keepBig at hkf
            intro hcon
            exact (of_decide_eq_false hkf) hcon
          by_cases hamt : 0 < stepAmount b0 b1
          · rw [if_pos hamt] at hrun
            have hT : T = (⟨(pickDebtor b0 b1).id, (pickCreditor b0 b1).id,
                round2 (stepAmount b0 b1)⟩ : Settlement) :: T' := (Option.some.inj hrun).symm
            subst hT
            have hpaid : ∀ pid, paidBy
                ((⟨(pickDebtor b0 b1).id, (pickCreditor b0 b1).id,
                   round2 (stepAmount b0 b1)⟩ : Settlement) :: T') pid =
                (if (pickDebtor b0 b1).id = pid then stepAmount b0 b1 else 0) + paidBy T' pid := by
              intro pid
              rw [paidBy_cons]
              dsimp only
              rw [round2_cent hacent]
            have hrecv : ∀ pid, recvBy
                ((⟨(pickDebtor b0 b1).id, (pickCreditor b0 b1).id,
                   round2 (stepAmount b0 b1)⟩ : Settlement) :: T') pid =
                (if (pickCreditor b0 b1).id = pid then stepAmount b0 b1 else 0) + recvBy T' pid := by
              intro pid
              rw [recvBy_cons]
              dsimp only
              rw [round2_cent hacent]
            have hperm : countBad bs
                ((⟨(pickDebtor b0 b1).id, (pickCreditor b0 b1).id,
                   round2 (stepAmount b0 b1)⟩ : Settlement) :: T') =
                countBad (b0 :: b1 :: rest)
                ((⟨(pickDebtor b0 b1).id, (pickCreditor b0 b1).id,
                   round2 (stepAmount b0 b1)⟩ : Settlement) :: T') := by
              unfold countBad
              rw [← hsb]
              exact ((sortBalances_perm bs).countP_eq _).symm
            rw [hperm, countBad_step hids hc0 hc1 hpaid hrecv, countBad_filter hdrop, ← hbs']
            exact hbad'
          · rw [if_neg hamt] at hrun
            have hT : T = T' := (Option.some.inj hrun).symm
            subst hT
            have ha0 : stepAmount b0 b1 = 0 :=
              le_antisymm (not_lt.mp hamt) (stepAmount_nonneg hcred)
            have hpaid : ∀ pid, paidBy T pid =
                (if (pickDebtor b0 b1).id = pid then stepAmount b0 b1 else 0) + paidBy T pid := by
              intro pid
              rw [ha0]
              split <;> ring
            have hrecv : ∀ pid, recvBy T pid =
                (if (pickCreditor b0 b1).id = pid then stepAmount b0 b1 else 0) + recvBy T pid := by
              intro pid
              rw [ha0]
              split <;> ring
            have hperm : countBad bs T = countBad (b0 :: b1 :: rest) T := by
              unfold countBad
              rw [← hsb]
              exact ((sortBalances_perm bs).countP_eq _).symm
            rw [hperm, countBad_step hids hc0 hc1 hpaid hrecv, countBad_filter hdrop, ← hbs']
            exact hbad'

theorem countBad_allBalances {players : List Player} {t : ℚ} {T : List Settlement} {fuel : ℕ}
    (hnodup : (players.map Player.id).Nodup)
    (hrun : settleLoop fuel (initialBalances players t) = some T) :
    countBad (allBalances players t) T = countBad (initialBalances players t) T := by
  have hnodupAll : (idsOf (allBalances players t)).Nodup := by
    rw [idsOf_allBalances]
    exact hnodup
  apply countBad_filter
  intro e he hkf
  have hnotouch : ∀ s ∈ T, s.«from» ≠ e.id ∧ s.«to» ≠ e.id := by
    intro s hsmem
    have hsids := settleLoop_mem_ids hrun s hsmem
    constructor
    · intro hcon
      rw [hcon] at hsids
      obtain ⟨e', he'mem, he'id⟩ := List.mem_map.mp hsids.1
      have he'filter := List.mem_filter.mp he'mem
      have : e' = e := List.inj_on_of_nodup_map hnodupAll he'filter.1 he he'id
      rw [this, hkf] at he'filter
      cases he'filter.2
    · intro hcon
      rw [hcon] at hsids
      obtain ⟨e', he'mem, he'id⟩ := List.mem_map.mp hsids.2
      have he'filter := List.mem_filter.mp he'mem
      have : e' = e := List.inj_on_of_nodup_map hnodupAll he'filter.1 he he'id
      rw [this, hkf] at he'filter
      cases he'filter.2
  have hres : residual e T = e.balance := by
    unfold residual
    rw [paidBy_eq_zero (fun s hsm => (hnotouch s hsm).1),
      recvBy_eq_zero (fun s hsm => (hnotouch s hsm).2)]
    ring
  rw [hres]
  unfold keepBig at hkf
  intro hcon
  exact (of_decide_eq_false hkf) hcon

theorem settleLoop_succ {fuel : ℕ} {bs : List BalanceEntry} (hlen : 1 < bs.length) :
    settleLoop (fuel + 1) bs =
      match settleLoop fuel (settleStep bs).1 with
      | none => none
      | some rest =>
          some (match (settleStep bs).2 with
                | some s => s :: rest
                | none => rest) := by
  rw [settleLoop]
  rw [if_pos hlen]

theorem settleLoop_none_step {fuel : ℕ} {bs : List BalanceEntry} (hlen : 1 < bs.length)
    (h : settleLoop fuel (settleStep bs).1 = none) : settleLoop (fuel + 1) bs = none := by
  rw [settleLoop_succ hlen, h]

theorem cyc_loop_none : ∀ fuel : ℕ,
    settleLoop fuel cycA = none ∧ settleLoop fuel cycB = none ∧
    settleLoop fuel cycC = none ∧ settleLoop fuel cycD = none := by
  intro fuel
  induction fuel with
  | zero => exact ⟨rfl, rfl, rfl, rfl⟩
  | succ fuel ih =>
      obtain ⟨ha, hb, hc, hd⟩ := ih
      refine ⟨?_, ?_, ?_, ?_⟩
      · exact settleLoop_none_step (by decide)
          (by rw [show (settleStep cycA).1 = cycB from by decide]; exact hb)
      · exact settleLoop_none_step (by decide)
          (by rw [show (settleStep cycB).1 = cycC from by decide]; exact hc)
      · exact settleLoop_none_step (by decide)
          (by rw [show (settleStep cycC).1 = cycD from by decide]; exact hd)
      · exact settleLoop_none_step (by decide)
          (by rw [show (settleStep cycD).1 = cycA from by decide]; exact ha)

theorem settleLoop_sevenGame_none :
    ∀ fuel : ℕ, settleLoop fuel (initialBalances sevenGame 1) = none := by
  intro fuel
  match fuel with
  | 0 => rfl
  | 1 => decide
  | (f + 2) =>
      have h1 : settleLoop (f + 1) preCyc = none :=
        settleLoop_none_step (by decide)
          (by rw [show (settleStep preCyc).1 = cycA from by decide]; exact (cyc_loop_none f).1)
      exact settleLoop_none_step (by decide)
        (by rw [show (settleStep (initialBalances sevenGame 1)).1 = preCyc from by decide]
            exact h1)

theorem keepBig_eq_false_of_zero {e : BalanceEntry} (h : e.balance = 0) :
    keepBig e = false := by
  unfold keepBig absQ
  rw [h]
  norm_num

theorem filter_cons_cons_length_lt {x y : BalanceEntry} {l : List BalanceEntry}
    (h : keepBig x = false ∨ keepBig y = false) :
    (List.filter keepBig (x :: y :: l)).length < (x :: y :: l).length := by
  rcases h with h | h
  · rw [List.filter_cons, if_neg (by rw [h]; exact Bool.false_ne_true)]
    calc (List.filter keepBig (y :: l)).length ≤ (y :: l).length :=
          List.length_filter_le _ _
      _ < (x :: y :: l).length := by simp
  · rw [List.filter_cons]
    have h2 : (List.filter keepBig (y :: l)).length ≤ l.length := by
      rw [List.filter_cons, if_neg (by rw [h]; exact Bool.false_ne_true)]
      exact List.length_filter_le _ _
    split
    · simp only [List.length_cons]
      omega
    · have := List.length_filter_le keepBig (y :: l)
      simp only [List.length_cons]
      omega

theorem settleStep_length_lt {bs : List BalanceEntry} {b0 b1 : BalanceEntry}
    {rest : List BalanceEntry} (hsort : sortBalances bs = b0 :: b1 :: rest)
    (hsign : (b0.balance < 0 ∧ 0 < b1.balance) ∨ (b1.balance < 0 ∧ 0 < b0.balance)) :
    (settleStep bs).1.length < bs.length := by
  have hlenbs : (b0 :: b1 :: rest).length = bs.length := by
    rw [← hsort]
    exact length_sortBalances bs
  rw [settleStep_eq hsort]
  dsimp only
  rw [← hlenbs]
  rcases hsign with ⟨hb0, hb1⟩ | ⟨hb1, hb0⟩
  · rw [stepUpdated_of_neg hb0]
    apply filter_cons_cons_length_lt
    unfold stepAmount
    rw [pickDebtor_of_neg hb0, pickCreditor_of_nonpos (by linarith), absQ_of_neg hb0]
    unfold minQ
    by_cases hm : -b0.balance ≤ b1.balance
    · left
      apply keepBig_eq_false_of_zero
      dsimp only
      rw [if_pos hm]
      have : b0.balance + -b0.balance = 0 := by ring
      rw [this]
      rw [show round2 0 = 0 from round2_cent IsCent.zero]
    · right
      apply keepBig_eq_false_of_zero
      dsimp only
      rw [if_neg hm]
      have : b1.balance - b1.balance = 0 := by ring
      rw [this]
      rw [show round2 0 = 0 from round2_cent IsCent.zero]
  · rw [stepUpdated_of_pos hb0]
    apply filter_cons_cons_length_lt
    unfold stepAmount
    rw [pickDebtor_of_nonneg (by linarith), pickCreditor_of_pos hb0, absQ_of_neg hb1]
    unfold minQ
    by_cases hm : -b1.balance ≤ b0.balance
    · right
      apply keepBig_eq_false_of_zero
      dsimp only
      rw [if_pos hm]
      have : b1.balance + -b1.balance = 0 := by ring
      rw [this]
      rw [show round2 0 = 0 from round2_cent IsCent.zero]
    · left
      apply keepBig_eq_false_of_zero
      dsimp only
      rw [if_neg hm]
      have : b0.balance - b0.balance = 0 := by ring
      rw [this]
      rw [show round2 0 = 0 from round2_cent IsCent.zero]

theorem transfer_bounds {bs : List BalanceEntry} {b0 b1 : BalanceEntry}
    {rest bs' : List BalanceEntry} {s : Settlement}
    (hsort : sortBalances bs = b0 :: b1 :: rest)
    (hcent : ∀ e ∈ bs, IsCent e.balance)
    (hstep : settleStep bs = (bs', some s)) :
    s.«from» = (pickDebtor b0 b1).id ∧ s.«to» = (pickCreditor b0 b1).id ∧
    s.amount ≤ absQ (pickDebtor b0 b1).balance ∧ s.amount ≤ (pickCreditor b0 b1).balance := by
  have hb0mem : b0 ∈ bs := mem_of_mem_sortBalances (hsort ▸ List.mem_cons_self _ _)
  have hb1mem : b1 ∈ bs :=
    mem_of_mem_sortBalances (hsort ▸ List.mem_cons_of_mem _ (List.mem_cons_self _ _))
  have hacent : IsCent (stepAmount b0 b1) :=
    stepAmount_cent (hcent b0 hb0mem) (hcent b1 hb1mem)
  rw [settleStep_eq hsort] at hstep
  by_cases hamt : 0 < stepAmount b0 b1
  · rw [if_pos hamt] at hstep
    have hs : s = ⟨(pickDebtor b0 b1).id, (pickCreditor b0 b1).id,
        round2 (stepAmount b0 b1)⟩ :=
      (Option.some.inj (congrArg Prod.snd hstep)).symm
    subst hs
    refine ⟨rfl, rfl, ?_, ?_⟩
    · dsimp only
      rw [round2_cent hacent]
      exact minQ_le_left _ _
    · dsimp only
      rw [round2_cent hacent]
      exact minQ_le_right _ _
  · rw [if_neg hamt] at hstep
    have hcontra := congrArg Prod.snd hstep
    simp at hcontra

theorem absQ_pos_of_ne {x : ℚ} (h : x ≠ 0) : 0 < absQ x := by
  unfold absQ
  rcases lt_trichotomy x 0 with hx | hx | hx
  · rw [if_pos hx]
    linarith
  · exact absurd hx h
  · rw [if_neg (by linarith)]
    exact hx

/-- Claim C1 (corrected), counterexample to the claim as stated: two players
with buy-ins 1, 1 and cash-outs 1.01, 0.99 have equal totals (imbalance 0,
within 0.01 of balance), yet `calculateSettlements` returns no transfers at
all — both one-penny balances are dropped by the `> 0.01` filter — so player
"1"'s net position of +0.01 is not zeroed exactly. -/
theorem c1_counterexample :
    calculateTotals pennyPair = ⟨2, 2⟩ ∧
    calculateSettlements 9 pennyPair 1 = some [] ∧
    pennyPair.map (fun p => p.cashOut - p.buyIn) = [1/100, -(1/100)] ∧
    residual ⟨"1", "A", 1/100⟩ [] ≠ 0 := by
  decide

/-- Claim C1 (amended): for unique player ids, an imbalance within the
threshold, and a run in which every greedy iteration selects a creditor with
non-negative balance, the returned transfers settle every player's adjusted
balance to within one penny, except for at most one player (the unmatched
final residual).  Exact zeroing of every balance is false (see the
counterexample); so is the penny bound without the creditor condition. -/
theorem c1_amended (fuel : ℕ) (players : List Player) (t : ℚ) (T : List Settlement)
    (hnodup : (players.map Player.id).Nodup)
    (himb : absQ ((calculateTotals players).totalCashOuts -
      (calculateTotals players).totalBuyIns) ≤ t)
    (hok : stepsOK fuel (initialBalances players t) = true)
    (hrun : calculateSettlements fuel players t = some T) :
    countBad (allBalances players t) T ≤ 1 := by
  have hguard : ¬t < absQ ((calculateTotals players).totalCashOuts -
      (calculateTotals players).totalBuyIns) := not_lt.mpr himb
  rw [calculateSettlements_of_within hguard] at hrun
  rw [countBad_allBalances hnodup hrun]
  exact settleLoop_countBad (nodup_initialBalances hnodup) (cent_initialBalances _ _) hok hrun

/-- Claim C1 (amended), witness: a balanced two-player game where the single
transfer zeroes both balances, so no player is left more than a penny off. -/
theorem c1_witness :
    (simple2.map Player.id).Nodup ∧
    absQ ((calculateTotals simple2).totalCashOuts -
      (calculateTotals simple2).totalBuyIns) ≤ 1 ∧
    stepsOK 2 (initialBalances simple2 1) = true ∧
    calculateSettlements 2 simple2 1 = some [⟨"2", "1", 1/2⟩] ∧
    countBad (allBalances simple2 1) [⟨"2", "1", 1/2⟩] ≤ 1 := by
  refine ⟨by decide, by decide, by decide, by decide, ?_⟩
  exact c1_amended 2 simple2 1 [⟨"2", "1", 1/2⟩] (by decide) (by decide) (by decide) (by decide)

/-- Claim C2 (confirmed): whenever the absolute imbalance between total
cash-outs and total buy-ins strictly exceeds the threshold,
`calculateSettlements` returns the empty transfer list, for any fuel. -/
theorem c2_refusal (fuel : ℕ) (players : List Player) (t : ℚ)
    (h : t < absQ ((calculateTotals players).totalCashOuts -
      (calculateTotals players).totalBuyIns)) :
    calculateSettlements fuel players t = some [] :=
  calculateSettlements_of_imbalance h

/-- Claim C2, witness: a single player who cashed out 5 with no buy-in is
refused at threshold 1. -/
theorem c2_witness :
    (1 : ℚ) < absQ ((calculateTotals lopsided1).totalCashOuts -
      (calculateTotals lopsided1).totalBuyIns) ∧
    calculateSettlements 0 lopsided1 1 = some [] :=
  ⟨by decide, c2_refusal 0 lopsided1 1 (by decide)⟩

/-- Claim C3 (corrected), counterexample to the claim as stated: on the
`tiedQuad` game (balances +0.02, +0.02, -0.02, -0.02) the stable sort leaves
the two positive entries in front, so the two largest-magnitude balances have
the same sign, and the selected debtor ("2") has a positive balance; the
first emitted transfer makes one surplus player pay another. -/
theorem c3_counterexample :
    sortBalances (initialBalances tiedQuad 1) =
      [⟨"1", "A", 1/50⟩, ⟨"2", "B", 1/50⟩, ⟨"3", "C", -(1/50)⟩, ⟨"4", "D", -(1/50)⟩] ∧
    0 < (pickDebtor ⟨"1", "A", 1/50⟩ ⟨"2", "B", 1/50⟩).balance ∧
    (settleStep (initialBalances tiedQuad 1)).2 = some ⟨"2", "1", 1/50⟩ := by
  decide

/-- Claim C3 (amended): whenever the two largest-magnitude balances after
sorting do have opposite signs, the source's selection rule picks a debtor
with strictly negative balance and a creditor with strictly positive
balance.  The opposite-sign precondition itself is not an invariant of the
loop (see the counterexample). -/
theorem c3_amended {bs : List BalanceEntry} {b0 b1 : BalanceEntry}
    {rest : List BalanceEntry} (hsort : sortBalances bs = b0 :: b1 :: rest)
    (hsign : (b0.balance < 0 ∧ 0 < b1.balance) ∨ (b1.balance < 0 ∧ 0 < b0.balance)) :
    (pickDebtor b0 b1).balance < 0 ∧ 0 < (pickCreditor b0 b1).balance := by
  rcases hsign with ⟨h0, h1⟩ | ⟨h1, h0⟩
  · rw [pickDebtor_of_neg h0, pickCreditor_of_nonpos (by linarith)]
    exact ⟨h0, h1⟩
  · rw [pickDebtor_of_nonneg (by linarith), pickCreditor_of_pos h0]
    exact ⟨h1, h0⟩

/-- Claim C3 (amended), witness: a two-entry state with opposite signs where
the rule selects the negative entry as debtor and the positive as creditor. -/
theorem c3_witness :
    sortBalances halfPair = [posHalf, negHalf] ∧
    ((pickDebtor posHalf negHalf).balance < 0 ∧
      0 < (pickCreditor posHalf negHalf).balance) := by
  refine ⟨by decide, ?_⟩
  exact @c3_amended halfPair posHalf negHalf [] (by decide) (Or.inr (by decide))

/-- Claim C4 (corrected), counterexample to the claim as stated: in the
`tiedQuad` run, player "2" has a positive adjusted balance of +0.02 (so an
adjusted deficit of zero) yet pays out 0.02 in total, and receives 0.04 in
total, which exceeds the +0.02 adjusted surplus. -/
theorem c4_counterexample :
    calculateSettlements 20 tiedQuad 1 =
      some [⟨"2", "1", 1/50⟩, ⟨"3", "2", 1/50⟩, ⟨"4", "2", 1/50⟩] ∧
    allBalances tiedQuad 1 =
      [⟨"1", "A", 1/50⟩, ⟨"2", "B", 1/50⟩, ⟨"3", "C", -(1/50)⟩, ⟨"4", "D", -(1/50)⟩] ∧
    paidBy [⟨"2", "1", 1/50⟩, ⟨"3", "2", 1/50⟩, ⟨"4", "2", 1/50⟩] "2" = 1/50 ∧
    recvBy [⟨"2", "1", 1/50⟩, ⟨"3", "2", 1/50⟩, ⟨"4", "2", 1/50⟩] "2" = 1/25 ∧
    0 < (1/50 : ℚ) ∧ ¬((1/25 : ℚ) ≤ 1/50) := by
  decide

/-- Claim C4 (amended): every single emitted transfer, at the moment it is
emitted, is bounded by the current state: it flows from the selected debtor
to the selected creditor, and its amount is at most the debtor's current
absolute balance and at most the creditor's current balance.  The cumulative
per-player sums claimed by C4 can exceed the player's initial adjusted
deficit or surplus (see the counterexample). -/
theorem c4_amended {bs : List BalanceEntry} {b0 b1 : BalanceEntry}
    {rest bs' : List BalanceEntry} {s : Settlement}
    (hsort : sortBalances bs = b0 :: b1 :: rest)
    (hcent : ∀ e ∈ bs, IsCent e.balance)
    (hstep : settleStep bs = (bs', some s)) :
    s.«from» = (pickDebtor b0 b1).id ∧ s.«to» = (pickCreditor b0 b1).id ∧
    s.amount ≤ absQ (pickDebtor b0 b1).balance ∧ s.amount ≤ (pickCreditor b0 b1).balance :=
  transfer_bounds hsort hcent hstep

/-- Claim C4 (amended), witness: the two-entry state with balances +0.50 and
-0.50 emits a single transfer of 0.50, within both bounds. -/
theorem c4_witness :
    settleStep halfPair = ([], some ⟨"2", "1", 1/2⟩) ∧
    ((⟨"2", "1", 1/2⟩ : Settlement).«from» = (pickDebtor posHalf negHalf).id ∧
      (⟨"2", "1", 1/2⟩ : Settlement).«to» = (pickCreditor posHalf negHalf).id ∧
      (⟨"2", "1", 1/2⟩ : Settlement).amount ≤ absQ (pickDebtor posHalf negHalf).balance ∧
      (⟨"2", "1", 1/2⟩ : Settlement).amount ≤ (pickCreditor posHalf negHalf).balance) := by
  refine ⟨by decide, ?_⟩
  refine @c4_amended halfPair posHalf negHalf [] [] ⟨"2", "1", 1/2⟩ (by decide) ?_ (by decide)
  intro e he
  simp only [halfPair, List.mem_cons, List.not_mem_nil, or_false] at he
  rcases he with rfl | rfl
  · exact ⟨50, by norm_num [posHalf]⟩
  · exact ⟨-50, by norm_num [negHalf]⟩

/-- Claim C5 (corrected), counterexample to the claim as stated: the
six-player `hexGame` (balances +0.05, +0.03 and four of -0.02) terminates
with 7 transfers, exceeding `playerCount - 1 = 5`; same-sign iterations do
not eliminate a balance. -/
theorem c5_counterexample :
    calculateSettlements 20 hexGame 1 =
      some [⟨"2", "1", 3/100⟩, ⟨"1", "2", 1/50⟩, ⟨"1", "2", 1/25⟩,
            ⟨"3", "1", 1/50⟩, ⟨"4", "1", 1/50⟩, ⟨"5", "1", 1/50⟩, ⟨"6", "1", 1/50⟩] ∧
    hexGame.length = 6 ∧
    ([⟨"2", "1", 3/100⟩, ⟨"1", "2", 1/50⟩, ⟨"1", "2", 1/25⟩,
      ⟨"3", "1", 1/50⟩, ⟨"4", "1", 1/50⟩, ⟨"5", "1", 1/50⟩,
      ⟨"6", "1", 1/50⟩] : List Settlement).length = 7 ∧
    ¬((7 : ℕ) ≤ 6 - 1) := by
  decide

/-- Claim C5 (amended): a greedy iteration whose two largest-magnitude
balances have opposite signs strictly decreases the number of surviving
balances (it zeroes the smaller side exactly and the filter drops it); the
`playerCount - 1` bound on the number of transfers holds only for runs made
of such iterations and fails in general (see the counterexample). -/
theorem c5_amended {bs : List BalanceEntry} {b0 b1 : BalanceEntry}
    {rest : List BalanceEntry} (hsort : sortBalances bs = b0 :: b1 :: rest)
    (hsign : (b0.balance < 0 ∧ 0 < b1.balance) ∨ (b1.balance < 0 ∧ 0 < b0.balance)) :
    (settleStep bs).1.length < bs.length :=
  settleStep_length_lt hsort hsign

/-- Claim C5 (amended), witness: the opposite-sign two-entry state loses both
entries in one step. -/
theorem c5_witness :
    sortBalances halfPair = [posHalf, negHalf] ∧
    (settleStep halfPair).1.length < halfPair.length := by
  refine ⟨by decide, ?_⟩
  exact @c5_amended halfPair posHalf negHalf [] (by decide) (Or.inr (by decide))

/-- Claim C6 (code bug): the greedy loop does not always terminate.  On the
seven-player `sevenGame` (balances +0.07, +0.03 and five of -0.02, totals
exactly balanced) the loop state enters the four-cycle
`cycA → cycB → cycC → cycD → cycA` and never leaves: for every fuel bound the
modelled loop is still running, so the claimed bound of at most
`playerCount` iterations — and termination itself — fails. -/
theorem c6_nonterminating : ∀ fuel : ℕ, calculateSettlements fuel sevenGame 1 = none := by
  intro fuel
  rw [calculateSettlements_of_within (by decide)]
  exact settleLoop_sevenGame_none fuel

/-- Claim C7 (corrected), counterexample to the claim as stated: totals 2 and
2.005 differ by half a penny — within 0.01 — yet with threshold 0 the engine
refuses (the guard `abs(imbalance) > 0` fires) and returns the empty list,
while the same ledger at threshold 1 settles with a real transfer. -/
theorem c7_counterexample :
    absQ ((calculateTotals halfPennyPair).totalCashOuts -
      (calculateTotals halfPennyPair).totalBuyIns) = 1/200 ∧
    ((1 : ℚ)/200 ≤ 1/100) ∧ ((1 : ℚ)/200 ≠ 0) ∧
    calculateSettlements 9 halfPennyPair 0 = some [] ∧
    calculateSettlements 9 halfPennyPair 1 = some [⟨"1", "2", 2⟩] := by
  decide

/-- Claim C7 (amended): with threshold 0 the engine refuses — returning the
empty list from the imbalance check — whenever the imbalance is nonzero, i.e.
it proceeds to settle exactly when total buy-ins equal total cash-outs
exactly, not merely to within one cent. -/
theorem c7_amended (fuel : ℕ) (players : List Player)
    (h : (calculateTotals players).totalCashOuts -
      (calculateTotals players).totalBuyIns ≠ 0) :
    calculateSettlements fuel players 0 = some [] :=
  calculateSettlements_of_imbalance (absQ_pos_of_ne h)

/-- Claim C7 (amended), witness: the half-penny-imbalanced pair is refused at
threshold 0. -/
theorem c7_witness :
    ((calculateTotals halfPennyPair).totalCashOuts -
      (calculateTotals halfPennyPair).totalBuyIns ≠ 0) ∧
    calculateSettlements 9 halfPennyPair 0 = some [] :=
  ⟨by decide, c7_amended 9 halfPennyPair (by decide)⟩

/-- Claim C8 (confirmed): `calculateSettlements` is a pure function of its
arguments — two calls on identical inputs (same player list, same threshold,
same loop fuel) return identical transfer lists; there is no hidden state in
the model, matching the source function, which reads nothing but its
arguments and locals. -/
theorem c8_deterministic (fuel : ℕ) (players₁ players₂ : List Player) (t₁ t₂ : ℚ)
    (hp : players₁ = players₂) (ht : t₁ = t₂) :
    calculateSettlements fuel players₁ t₁ = calculateSettlements fuel players₂ t₂ := by
  rw [hp, ht]

/-- Claim C8, witness: two identical calls on the `simple2` game agree. -/
theorem c8_witness :
    calculateSettlements 2 simple2 1 = calculateSettlements 2 simple2 1 :=
  c8_deterministic 2 simple2 simple2 1 1 rfl rfl

/-- Claim C9 (corrected), counterexample to the claim as stated: a transfer
whose payer and payee ids are absent from the player list renders in the
settlements line with the text `undefined` (JavaScript interpolation of a
missing lookup), which is not an empty name — though indeed no error is
raised. -/
theorem c9_counterexample :
    settlementLine [] ⟨"x", "y", 5⟩ = "- undefined pays undefined: £5.00" ∧
    renderName (findName [] "x") = "undefined" ∧
    renderName (findName [] "x") ≠ "" := by
  decide

/-- Claim C9 (amended): when no player in the list carries the looked-up id,
the settlement-line name resolution yields the string "undefined" — not an
empty name, and not an error. -/
theorem c9_amended (players : List Player) (pid : String)
    (h : ∀ p ∈ players, p.id ≠ pid) :
    renderName (findName players pid) = "undefined" := by
  have hfind : players.find? (fun p => p.id == pid) = none :=
    List.find?_eq_none.mpr (fun p hp => by simpa using h p hp)
  unfold findName
  rw [hfind]
  rfl

/-- Claim C9 (amended), witness: looking up id "9" in a one-player list with
id "1" renders as "undefined". -/
theorem c9_witness :
    (∀ p ∈ [(⟨"1", "A", 1, 2⟩ : Player)], p.id ≠ "9") ∧
    renderName (findName [⟨"1", "A", 1, 2⟩] "9") = "undefined" :=
  ⟨by decide, c9_amended [⟨"1", "A", 1, 2⟩] "9" (by decide)⟩

/-- Claim C10 (confirmed): for players with pairwise-distinct ids and a
non-negative threshold, every transfer returned by `calculateSettlements` is
well-formed: its amount is strictly positive and its payer differs from its
payee. -/
theorem c10_wellFormed (fuel : ℕ) (players : List Player) (t : ℚ) (T : List Settlement)
    (hnodup : (players.map Player.id).Nodup) (ht : 0 ≤ t)
    (hrun : calculateSettlements fuel players t = some T) :
    ∀ s ∈ T, 0 < s.amount ∧ s.«from» ≠ s.«to» := by
  by_cases hg : t < absQ ((calculateTotals players).totalCashOuts -
      (calculateTotals players).totalBuyIns)
  · rw [calculateSettlements_of_imbalance hg] at hrun
    have hT : T = [] := (Option.some.inj hrun).symm
    subst hT
    intro s hs
    cases hs
  · rw [calculateSettlements_of_within hg] at hrun
    exact settleLoop_wellFormed (nodup_initialBalances hnodup)
      (cent_initialBalances _ _) (big_initialBalances _ _) hrun

/-- Claim C10, witness: the single transfer of the `simple2` game has
positive amount and distinct payer and payee. -/
theorem c10_witness :
    (simple2.map Player.id).Nodup ∧ ((0 : ℚ) ≤ 1) ∧
    calculateSettlements 2 simple2 1 = some [⟨"2", "1", 1/2⟩] ∧
    (0 < (1/2 : ℚ) ∧ ("2" : String) ≠ "1") := by
  refine ⟨by decide, by decide, by decide, ?_⟩
  exact c10_wellFormed 2 simple2 1 [⟨"2", "1", 1/2⟩] (by decide) (by decide) (by decide)
    ⟨"2", "1", 1/2⟩ (List.mem_cons_self _ _)

end PokerSettle
